import Mathlib

/-!
# piscator: harvesting and synchronising repositories

A shallow embedding of `pkg/piscator/piscator.go`.

* `GetRepos` (lines 51-147): the retry loop, the rate-limit stall, decoding and
  the fork / name / URL filter.
* `RepoByLanguage` (lines 150-169).
* `CloneReposFromJson` (lines 190-251): sequential prologue, then one goroutine
  per repository.  The goroutines are embedded as an interleaving transition
  system whose atomic steps are the statements of the goroutine body.

Functions of the Go standard library (JSON codec, `path.Join`, `url.URL.String`,
`strconv.ParseInt`) are parameters, gathered in `StdLib`; the outside world
(clock, file system, HTTP client, command executor) is explicit input.
-/

namespace Piscator

/-! ## Data model (lines 20-48) -/

/-- Go `error` values, identified by their message. -/
abbrev GoError := String

/-- The struct `Repo` (lines 21-24). -/
structure Repo where
  Name : String
  URL : String
deriving DecidableEq, Repr

/-- The struct `RepoModel` (lines 27-33); `Repo` is embedded. -/
structure RepoModel extends Repo where
  Lang : String
  Fork : Bool
  Private : Bool
  Size : Nat
deriving DecidableEq, Repr

/-- The part of `http.Header` that is used: `Get`. -/
structure HttpHeader where
  Get : String → String

/-- The part of `*http.Response` that is used. -/
structure Response where
  StatusCode : Int
  Header : HttpHeader
  Body : String

/-- The pair returned by `HttpClient.Do`; `none` is Go's `nil`. -/
structure DoResult where
  res : Option Response
  err : Option GoError

/-- An `HttpClient`: what the `n`-th call of `Do` (counted from 0) returns for a
GET request to the given URL.  A client may answer every call differently. -/
abbrev HttpClient := Nat → String → DoResult

/-- Standard-library functions the package calls. -/
structure StdLib where
  /-- The variadic `path.Join`. -/
  pathJoin : List String → String
  /-- The text `gh.String()` of `https://api.github.com/` once `gh.Path` is set. -/
  urlString : String → String
  /-- What `strconv.ParseInt(s, 10, 64)` returns as value (its error is dropped). -/
  parseInt : String → Int
  /-- Reading one `[]RepoModel` with `json.NewDecoder(body).Decode`. -/
  decode : String → Except GoError (List RepoModel)
  /-- The call `json.Unmarshal` into a `[]RepoModel`. -/
  unmarshalModels : String → Except GoError (List RepoModel)
  /-- The call `json.Unmarshal` into a `[]Repo`. -/
  unmarshalRepos : String → Except GoError (List Repo)
  /-- The call `json.MarshalIndent(v, "", "  ")` on a `[]RepoModel`. -/
  marshalIndent : List RepoModel → Except GoError String

/-- The outside world as `GetRepos` sees it. -/
structure World where
  /-- The reading of `time.Now()` inside `time.Until`, in Unix nanoseconds. -/
  now : Int
  /-- The error of `os.Create`, by file name. -/
  create : String → Option GoError
  /-- The error of `file.Write`, by the data written. -/
  write : String → Option GoError

/-! ## Durations (package `time`) -/

/-- The constant `time.Second`, in nanoseconds. -/
def Second : Int := 1000000000

/-- The largest `time.Duration` (an `int64` of nanoseconds). -/
def maxDuration : Int := 2 ^ 63 - 1

/-- The smallest `time.Duration`. -/
def minDuration : Int := -(2 ^ 63)

/-- The value `time.Until(time.Unix(sec, 0))` when the clock reads `now`
nanoseconds, for `sec` up to `2 ^ 63 - 1 - 62135596800`, the seconds a
`time.Time` can hold: `Time.Sub` returns the difference, or the largest
(smallest) duration when the difference does not fit into a `time.Duration`.
(For a larger `sec` the seconds stored by `time.Unix` wrap around and the
result is the smallest duration; the theorems below stay within the range.) -/
def timeUntilUnix (now sec : Int) : Int :=
  let d := sec * Second - now
  if d > maxDuration then maxDuration
  else if d < minDuration then minDuration
  else d

/-! ## GetRepos (lines 51-147) -/

/-- What `GetRepos` does to the outside world, in program order. -/
inductive Event where
  /-- The call `client.Do(req)`, line 75. -/
  | request (url : String)
  /-- The log line of line 77. -/
  | logError (attempt : Nat) (e : GoError)
  /-- The log line of line 82. -/
  | logStatus (attempt : Nat) (code : Int)
  /-- The call `time.Sleep(d)`, `d` in nanoseconds. -/
  | sleep (d : Int)
  /-- The call `Decode` on the response body, line 103. -/
  | decodeBody
  /-- The call `os.Create`, line 131. -/
  | createFile (name : String)
  /-- The call `file.Write`, line 138. -/
  | writeFile (data : String)
deriving DecidableEq, Repr

/-- The result of `GetRepos`: `(s, nil)`, `("", err)`, or a run-time panic. -/
inductive Outcome where
  | ok (s : String)
  | error (e : GoError)
  | panic
deriving DecidableEq, Repr

/-- The variables the retry loop assigns, and the effects so far. -/
structure Fetch where
  res : Option Response
  err : Option GoError
  trace : List Event
  panicked : Bool

/-- The URL of lines 52-70.  (`url.Parse` of the constant in line 54 does not
fail; `params.Encode()` lists the keys in sorted order.) -/
def githubURL (lib : StdLib) (name : String) (isOrg isPrivate : Bool) : String :=
  let ghPath := if isOrg then lib.pathJoin ["orgs", name, "repos"]
                else lib.pathJoin ["users", name, "repos"]
  let params := if isPrivate then "per_page=1000&private=true" else "per_page=1000"
  lib.urlString ghPath ++ "?" ++ params

/-- The loop `for i := 0; i < 3; i++` of lines 73-88.  The first argument is the
number of iterations left, `3 - i`.  A client that returns `(nil, nil)` makes
`res.StatusCode` in line 81 panic. -/
def retryLoop (client : HttpClient) (url : String) : Nat → Nat → Fetch → Fetch
  | 0, _, st => st
  | left + 1, i, st =>
    let r := client i url
    let tr := st.trace ++ [Event.request url]
    match r.err with
    | some e =>
      retryLoop client url left (i + 1)
        ⟨r.res, r.err, tr ++ [Event.logError (i + 1) e, Event.sleep (2 * Second)], false⟩
    | none =>
      match r.res with
      | none => ⟨r.res, r.err, tr, true⟩
      | some resp =>
        if resp.StatusCode ≠ 200 then
          retryLoop client url left (i + 1)
            ⟨r.res, r.err,
              tr ++ [Event.logStatus (i + 1) resp.StatusCode, Event.sleep (2 * Second)], false⟩
        else ⟨r.res, r.err, tr, false⟩

/-- The rate-limit stall of lines 95-100. -/
def rateLimitWait (lib : StdLib) (w : World) (res : Response) : List Event :=
  if res.Header.Get "X-Ratelimit-Remaining" = "0" then
    let resetTimeStr := res.Header.Get "X-Ratelimit-Reset"
    let resetTimeUnix := lib.parseInt resetTimeStr
    [Event.sleep (timeUntilUnix w.now resetTimeUnix)]
  else []

/-- The two filtering loops of lines 108-121. -/
def filterRepos (isForked : Bool) (repos : List RepoModel) : List RepoModel :=
  if isForked then
    repos.foldl
      (fun filteredRepos repo =>
        if repo.Name ≠ "" ∧ repo.URL ≠ "" then filteredRepos ++ [repo] else filteredRepos) []
  else
    repos.foldl
      (fun filteredRepos repo =>
        if repo.Fork = false ∧ repo.Name ≠ "" ∧ repo.URL ≠ "" then filteredRepos ++ [repo]
        else filteredRepos) []

/-- Lines 123-146: serialise, and write `repos.json` when asked to. -/
def emit (lib : StdLib) (w : World) (filteredRepos : List RepoModel) (makeFile : Bool) :
    Outcome × List Event :=
  match lib.marshalIndent filteredRepos with
  | .error e => (Outcome.error e, [])
  | .ok jsonData =>
    if makeFile then
      match w.create "repos.json" with
      | some e => (Outcome.error e, [Event.createFile "repos.json"])
      | none =>
        match w.write jsonData with
        | some e =>
          (Outcome.error e, [Event.createFile "repos.json", Event.writeFile jsonData])
        | none =>
          (Outcome.ok jsonData, [Event.createFile "repos.json", Event.writeFile jsonData])
    else (Outcome.ok jsonData, [])

/-- Lines 95-146: everything `GetRepos` does with the response it ends up with. -/
def processResponse (lib : StdLib) (w : World) (res : Response) (isForked makeFile : Bool) :
    Outcome × List Event :=
  let stall := rateLimitWait lib w res
  match lib.decode res.Body with
  | .error e => (Outcome.error e, stall ++ [Event.decodeBody])
  | .ok repos =>
    let out := emit lib w (filterRepos isForked repos) makeFile
    (out.1, stall ++ [Event.decodeBody] ++ out.2)

/-- The state of the retry loop before its first iteration (line 72). -/
def Fetch.start : Fetch := ⟨none, none, [], false⟩

/-- The function `GetRepos` (lines 51-147): its result and its effects. -/
def GetRepos (lib : StdLib) (w : World) (client : HttpClient) (name : String)
    (isOrg isPrivate isForked makeFile : Bool) : Outcome × List Event :=
  let url := githubURL lib name isOrg isPrivate
  let st := retryLoop client url 3 0 Fetch.start
  if st.panicked then (Outcome.panic, st.trace)
  else
    match st.err with
    | some e => (Outcome.error e, st.trace)
    | none =>
      match st.res with
      | none => (Outcome.error "failed to get repos after 3 attempts", st.trace)
      | some res =>
        let out := processResponse lib w res isForked makeFile
        (out.1, st.trace ++ out.2)

/-- The number of `client.Do` calls in a trace. -/
def requestCount (tr : List Event) : Nat :=
  tr.countP (fun e => match e with | Event.request _ => true | _ => false)

/-- The arguments of the `time.Sleep` calls in a trace, in order. -/
def sleeps (tr : List Event) : List Int :=
  tr.filterMap (fun e => match e with | Event.sleep d => some d | _ => none)

/-! ## RepoByLanguage (lines 150-169) -/

/-- The function `RepoByLanguage`. -/
def RepoByLanguage (lib : StdLib) (jsonStr language : String) : Except GoError String :=
  match lib.unmarshalModels jsonStr with
  | .error e => .error e
  | .ok repos =>
    let filteredRepos :=
      repos.foldl
        (fun filteredRepos repo =>
          if repo.Lang = language then filteredRepos ++ [repo] else filteredRepos) []
    match lib.marshalIndent filteredRepos with
    | .error e => .error e
    | .ok jsonData => .ok jsonData

/-! ## CloneReposFromJson (lines 190-251) -/

/-- What `os.Stat` reports for a path. -/
inductive StatResult where
  /-- No error: the path exists. -/
  | found
  /-- The error `ENOENT`: the path does not exist. -/
  | notExist
  /-- The error `ENOTDIR`: a component before the last one is not a directory, so
  the path does not exist. -/
  | notDir
  /-- Any other error, such as `EACCES`: nothing is known about the path. -/
  | otherError
deriving DecidableEq, Repr

/-- The path is known not to exist. -/
def StatResult.absent : StatResult → Bool
  | StatResult.notExist => true
  | StatResult.notDir => true
  | _ => false

/-- The test `os.IsNotExist(err)` on the error of `os.Stat`: true for `ENOENT`
only. -/
def os_IsNotExist : StatResult → Bool
  | StatResult.notExist => true
  | _ => false

/-- The file system as `os.Stat` sees it at one moment. -/
abbrev FileSystem := String → StatResult

/-- A call of the `CommandExecutor` interface (lines 171-174). -/
inductive Invocation where
  | ExecuteCommand (name : String) (arg : List String)
  | ExecuteCommandInDir (dir name : String) (arg : List String)
deriving DecidableEq, Repr

/-- The pair `([]byte, error)` an executor call returns. -/
structure ExecResult where
  cmdOut : String
  err : Option GoError

/-- Lines 221-230: the one executor call of a goroutine, chosen by `os.Stat`. -/
def syncCommand (lib : StdLib) (fs : FileSystem) (dir : String) (repo : Repo) : Invocation :=
  let repoPath := lib.pathJoin [dir, repo.Name]
  if os_IsNotExist (fs repoPath) then
    Invocation.ExecuteCommand "git" ["clone", repo.URL, repoPath]
  else
    Invocation.ExecuteCommandInDir repoPath "git" ["pull"]

/-- Where a goroutine of lines 216-242 stands. -/
inductive Pc where
  /-- Launched, before `sem <- struct{}{}` (line 217). -/
  | spawned
  /-- Holds a slot of `sem`. -/
  | admitted
  /-- Lines 221-238 done: the executor was called, the messages printed. -/
  | executed
  /-- Line 240 done: `atomic.AddUint64(&counter, 1)`. -/
  | counted
  /-- Line 241 done: the progress text was formatted and handed to the spinner. -/
  | reported
  /-- The deferred `wg.Done()` (line 219) has run. -/
  | signalled
  /-- The deferred `<-sem` (line 218) has run: the goroutine is over. -/
  | released
deriving DecidableEq, Repr

/-- What is written to standard output and to the log. -/
inductive Output where
  /-- Line 232: `failed to clone <url>: <output>`. -/
  | failed (url cmdOut : String)
  /-- Line 237: `Cloned <dir>/<name>`. -/
  | cloned (dir name : String)
  /-- Line 248: `Cloned <n> repos`. -/
  | summary (n : Nat)
deriving DecidableEq, Repr

/-- Lines 222-238: what a goroutine prints once the executor has answered `r`.
The `err` tested in line 231 is the variable declared in line 223.  Lines 226
and 229 assign the `err` that the `if` statement of line 224 declares, which
hides it in both branches, so the variable of line 223 is still `nil` in line
231 and the message of line 232 is not printed. -/
def taskOutput (dir : String) (verboseLog : Bool) (repo : Repo) (r : ExecResult) :
    List Output :=
  let cmdOut := r.cmdOut
  let err : Option GoError := none
  (if err.isSome then [Output.failed repo.URL cmdOut] else [])
    ++ (if verboseLog then [Output.cloned dir repo.Name] else [])

/-- What a run is given once the prologue (lines 191-213) has succeeded. -/
structure Run where
  lib : StdLib
  repos : List Repo
  dir : String
  /-- The capacity of the channel `sem`. -/
  limit : Nat
  verboseLog : Bool

/-- The shared variables of `CloneReposFromJson` and its goroutines. -/
structure State where
  /-- One entry per goroutine, in the order of `repos`. -/
  pcs : List Pc
  /-- The number of elements queued in `sem`. -/
  sem : Nat
  /-- The counter of the `WaitGroup`. -/
  wg : Int
  /-- The variable `counter`, a `uint64`. -/
  counter : Nat
  /-- The executor calls made so far, each with the index of its goroutine. -/
  calls : List (Nat × Invocation)
  output : List Output
  /-- Whether `CloneReposFromJson` has returned (it then returned `nil`, line 250). -/
  returned : Bool

/-- One atomic step of one goroutine, or of the function itself. -/
inductive Action where
  /-- Line 217. -/
  | acquire (t : Nat)
  /-- Lines 221-238, with what `os.Stat` sees and what the executor answers. -/
  | exec (t : Nat) (fs : FileSystem) (r : ExecResult)
  /-- Line 240. -/
  | addCounter (t : Nat)
  /-- Line 241: a plain load of `counter` and a store into the spinner.  The
  spinner is not part of the state, so the step only moves the goroutine on. -/
  | setSuffix (t : Nat)
  /-- Line 219, deferred. -/
  | wgDone (t : Nat)
  /-- Line 218, deferred. -/
  | release (t : Nat)
  /-- Lines 246-250: `wg.Wait()` returns, the summary is printed, `nil` is returned. -/
  | finish

/-- The state when the goroutines have been launched (lines 206-216):
`wg.Add(len(repos))`, `counter = 1`, an empty `sem`. -/
def State.start (c : Run) : State :=
  { pcs := List.replicate c.repos.length Pc.spawned
    sem := 0
    wg := c.repos.length
    counter := 1
    calls := []
    output := []
    returned := false }

/-- The effect of one step; `none` when the step is blocked or not the next
statement of that goroutine. -/
def step (c : Run) (s : State) : Action → Option State
  | Action.acquire t =>
    if s.pcs[t]? = some Pc.spawned ∧ s.sem < c.limit then
      some { s with pcs := s.pcs.set t Pc.admitted, sem := s.sem + 1 }
    else none
  | Action.exec t fs r =>
    match c.repos[t]? with
    | none => none
    | some repo =>
      if s.pcs[t]? = some Pc.admitted then
        some { s with
          pcs := s.pcs.set t Pc.executed
          calls := s.calls ++ [(t, syncCommand c.lib fs c.dir repo)]
          output := s.output ++ taskOutput c.dir c.verboseLog repo r }
      else none
  | Action.addCounter t =>
    if s.pcs[t]? = some Pc.executed then
      some { s with pcs := s.pcs.set t Pc.counted, counter := (s.counter + 1) % 2 ^ 64 }
    else none
  | Action.setSuffix t =>
    if s.pcs[t]? = some Pc.counted then
      some { s with pcs := s.pcs.set t Pc.reported }
    else none
  | Action.wgDone t =>
    if s.pcs[t]? = some Pc.reported then
      some { s with pcs := s.pcs.set t Pc.signalled, wg := s.wg - 1 }
    else none
  | Action.release t =>
    if s.pcs[t]? = some Pc.signalled ∧ 0 < s.sem then
      some { s with pcs := s.pcs.set t Pc.released, sem := s.sem - 1 }
    else none
  | Action.finish =>
    if s.wg = 0 ∧ s.returned = false then
      some { s with returned := true, output := s.output ++ [Output.summary c.repos.length] }
    else none

/-- A schedule: the steps taken one after another. -/
def run (c : Run) (s : State) : List Action → Option State
  | [] => some s
  | a :: rest =>
    match step c s a with
    | none => none
    | some s1 => run c s1 rest

/-- Whether a goroutine at this point holds a slot of `sem`: it has sent into
the channel and not yet received from it. -/
def Pc.holds : Pc → Bool
  | Pc.spawned => false
  | Pc.released => false
  | _ => true

/-- The number of goroutines that hold a slot. -/
def active (s : State) : Nat := s.pcs.countP Pc.holds

/-- The next step of goroutine `t` when it stands at `pc`. -/
def nextAction (t : Nat) (fs : FileSystem) (r : ExecResult) : Pc → Option Action
  | Pc.spawned => some (Action.acquire t)
  | Pc.admitted => some (Action.exec t fs r)
  | Pc.executed => some (Action.addCounter t)
  | Pc.counted => some (Action.setSuffix t)
  | Pc.reported => some (Action.wgDone t)
  | Pc.signalled => some (Action.release t)
  | Pc.released => none

/-- The result of the prologue, lines 191-213. -/
inductive Prologue where
  /-- An error was returned (line 194 or 201). -/
  | error (e : GoError)
  /-- The call `make(chan struct{}, concurrentLimit)` panicked: negative size. -/
  | panic
  /-- The goroutines are launched. -/
  | launched (c : Run)

/-- Lines 191-213 of `CloneReposFromJson`: `fs` is the file system before the
call, `mkdir` the error of `os.Mkdir`, `concurrentLimit` an `int8`. -/
def prologue (lib : StdLib) (fs : FileSystem) (mkdir : String → Option GoError)
    (jsonStr name : String) (concurrentLimit : Int) (verboseLog : Bool) : Prologue :=
  match lib.unmarshalRepos jsonStr with
  | .error e => Prologue.error e
  | .ok repos =>
    let dir := name
    let dirError :=
      if os_IsNotExist (fs dir) then
        match mkdir dir with
        | some e => some ("error creating directory: " ++ e)
        | none => none
      else none
    match dirError with
    | some e => Prologue.error e
    | none =>
      if concurrentLimit < 0 then Prologue.panic
      else Prologue.launched ⟨lib, repos, dir, concurrentLimit.toNat, verboseLog⟩

/-- The number of statements of the goroutine body already executed. -/
def Pc.rank : Pc → Nat
  | Pc.spawned => 0
  | Pc.admitted => 1
  | Pc.executed => 2
  | Pc.counted => 3
  | Pc.reported => 4
  | Pc.signalled => 5
  | Pc.released => 6

/-- The goroutine has made its executor call. -/
def Pc.hasExecuted (pc : Pc) : Bool := decide (2 ≤ pc.rank)

/-- The goroutine has incremented `counter`. -/
def Pc.hasCounted (pc : Pc) : Bool := decide (3 ≤ pc.rank)

/-- The goroutine has not yet called `wg.Done()`. -/
def Pc.pending (pc : Pc) : Bool := decide (pc.rank < 5)

/-- An upper bound on the steps a state can still take: the statements left in
every goroutine, and the return of the function. -/
def stepsLeft (s : State) : Nat :=
  (s.pcs.map (fun pc => 6 - pc.rank)).sum + (if s.returned then 0 else 1)

/-- Whether goroutine `t` has made its executor call, as a number. -/
def executedAt (pcs : List Pc) (t : Nat) : Nat :=
  match pcs[t]? with
  | some pc => if pc.hasExecuted then 1 else 0
  | none => 0

/-- What holds in every state a schedule can reach. -/
structure Inv (c : Run) (s : State) : Prop where
  len : s.pcs.length = c.repos.length
  sem_eq : s.sem = active s
  sem_le : s.sem ≤ c.limit
  wg_eq : s.wg = ((s.pcs.countP Pc.pending : Nat) : Int)
  counter_eq : s.counter = (1 + s.pcs.countP Pc.hasCounted) % 2 ^ 64
  calls_count : ∀ t, (s.calls.map Prod.fst).count t = executedAt s.pcs t
  calls_cmd : ∀ x ∈ s.calls, ∃ repo fs,
    c.repos[x.1]? = some repo ∧ x.2 = syncCommand c.lib fs c.dir repo
  summary_iff : ∀ n, Output.summary n ∈ s.output ↔ (s.returned = true ∧ n = c.repos.length)
  returned_wg : s.returned = true → s.wg = 0

/-- A schedule in which goroutine `t` sees the file system `fs t` and gets the
executor answer `rs t`. -/
def Respects (fs : Nat → FileSystem) (rs : Nat → ExecResult) : Action → Prop
  | Action.exec t f r => f = fs t ∧ r = rs t
  | _ => True

/-! ## The claims' own words -/

/-- The records the fetch is to return: name and URL non-empty, and no fork
unless forks are included. -/
def wantedRepos (isForked : Bool) (repos : List RepoModel) : List RepoModel :=
  repos.filter (fun r => decide (r.Name ≠ "" ∧ r.URL ≠ "" ∧ (isForked = false → r.Fork = false)))

/-- The records whose language is the queried one. -/
def wantedByLanguage (language : String) (repos : List RepoModel) : List RepoModel :=
  repos.filter (fun r => decide (r.Lang = language))

/-! ## Concrete inputs -/

/-- Four records: a plain one, a fork, one without name, one without URL. -/
def sampleRepos : List RepoModel :=
  [ ⟨⟨"a", "u1"⟩, "Go", false, false, 1⟩,
    ⟨⟨"f", "u2"⟩, "Go", true, false, 2⟩,
    ⟨⟨"", "u3"⟩, "Lean", false, false, 3⟩,
    ⟨⟨"n", ""⟩, "Lean", false, false, 4⟩ ]

/-- A body that stands for the JSON text of `sampleRepos`. -/
def sampleBody : String := "[a f - n]"

/-- A stand-in for the standard library that knows three JSON texts. -/
def sampleLib : StdLib :=
  { pathJoin := fun parts => "/".intercalate parts
    urlString := fun p => "https://api.github.com/" ++ p
    parseInt := fun s =>
      if s = "1700000060" then 1700000060 else if s = "20000000000" then 20000000000 else 0
    decode := fun s =>
      if s = sampleBody then .ok sampleRepos else .error "invalid character"
    unmarshalModels := fun s =>
      if s = sampleBody then .ok sampleRepos else .error "invalid character"
    unmarshalRepos := fun s =>
      if s = sampleBody then .ok (sampleRepos.map (fun r => r.toRepo))
      else if s = "[a b]" then .ok [⟨"a", "u1"⟩, ⟨"b", "u2"⟩]
      else if s = "[a]" then .ok [⟨"a", "u1"⟩]
      else .error "invalid character"
    marshalIndent := fun rs => .ok (", ".intercalate (rs.map (fun r => r.Name))) }

/-- A world whose clock reads 1700000000 s and whose files can be written. -/
def sampleWorld : World :=
  { now := 1700000000 * Second
    create := fun _ => none
    write := fun _ => none }

/-- No header is set. -/
def noHeader : HttpHeader := ⟨fun _ => ""⟩

/-- The rate limit is used up; the reset time is the given text. -/
def limitHeader (reset : String) : HttpHeader :=
  ⟨fun k => if k = "X-Ratelimit-Remaining" then "0"
            else if k = "X-Ratelimit-Reset" then reset else ""⟩

/-- A client whose every call fails with its own error. -/
def failingClient : HttpClient := fun i _ =>
  ⟨none, some (if i = 0 then "timeout 1" else if i = 1 then "timeout 2" else "timeout 3")⟩

/-- A client that answers every call with status 500 and the sample body. -/
def status500Client : HttpClient := fun _ _ => ⟨some ⟨500, noHeader, sampleBody⟩, none⟩

/-- A client that fails, then answers 503, then answers 200 with the sample body. -/
def thirdTimeClient : HttpClient := fun i _ =>
  if i = 0 then ⟨none, some "connection reset"⟩
  else if i = 1 then ⟨some ⟨503, noHeader, ""⟩, none⟩
  else ⟨some ⟨200, noHeader, sampleBody⟩, none⟩

/-- A client that answers 200 at once, rate limit used up, reset in 60 s. -/
def limitedClient : HttpClient := fun _ _ =>
  ⟨some ⟨200, limitHeader "1700000060", sampleBody⟩, none⟩

/-- A client that answers 200 at once, rate limit used up, reset in the year 2603. -/
def farResetClient : HttpClient := fun _ _ =>
  ⟨some ⟨200, limitHeader "20000000000", sampleBody⟩, none⟩

/-- Two repositories, synchronised one at a time. -/
def sampleRun : Run :=
  { lib := sampleLib
    repos := [⟨"a", "u1"⟩, ⟨"b", "u2"⟩]
    dir := "acme"
    limit := 1
    verboseLog := false }

/-- A file system in which no path exists. -/
def emptyDisk : FileSystem := fun _ => StatResult.notExist

/-- A file system in which every path exists. -/
def fullDisk : FileSystem := fun _ => StatResult.found

/-- An executor answer without error. -/
def succeeded : ExecResult := ⟨"", none⟩

/-- An executor answer with an error. -/
def failedClone : ExecResult := ⟨"fatal: repository not found", some "exit status 128"⟩

/-- The first goroutine runs to its end and fails, then the second one runs and
succeeds, then the function returns. -/
def sampleSchedule : List Action :=
  [ Action.acquire 0, Action.exec 0 emptyDisk failedClone, Action.addCounter 0,
    Action.setSuffix 0, Action.wgDone 0, Action.release 0,
    Action.acquire 1, Action.exec 1 fullDisk succeeded, Action.addCounter 1,
    Action.setSuffix 1, Action.wgDone 1, Action.release 1,
    Action.finish ]

/-- The state `sampleSchedule` ends in. -/
def sampleFinal : State :=
  { pcs := [Pc.released, Pc.released]
    sem := 0
    wg := 0
    counter := 3
    calls := [ (0, Invocation.ExecuteCommand "git" ["clone", "u1", "acme/a"]),
               (1, Invocation.ExecuteCommandInDir "acme/b" "git" ["pull"]) ]
    output := [Output.summary 2]
    returned := true }

/-- The second goroutine is admitted first and has made its call, which failed. -/
def sampleHalfway : State :=
  { pcs := [Pc.spawned, Pc.executed]
    sem := 1
    wg := 2
    counter := 1
    calls := [(1, Invocation.ExecuteCommand "git" ["clone", "u2", "acme/b"])]
    output := []
    returned := false }

/-- A disk on which `plainfile` is a regular file: nothing exists below it, and
`os.Stat` fails there with `ENOTDIR`. -/
def plainfileDisk : FileSystem := fun p =>
  if p = "plainfile" then StatResult.found
  else if p = "plainfile/acme" ∨ p = "plainfile/acme/a" then StatResult.notDir
  else StatResult.notExist

/-- One repository, to be synchronised below the regular file `plainfile`. -/
def brokenRun : Run :=
  { lib := sampleLib
    repos := [⟨"a", "u1"⟩]
    dir := "plainfile/acme"
    limit := 1
    verboseLog := false }

/-- The one goroutine of `brokenRun` has entered the gate. -/
def brokenAdmitted : State :=
  { pcs := [Pc.admitted]
    sem := 1
    wg := 1
    counter := 1
    calls := []
    output := []
    returned := false }

/-- The four sample repositories behind a gate of size 0. -/
def zeroRun : Run :=
  { lib := sampleLib
    repos := sampleRepos.map (fun r => r.toRepo)
    dir := "acme"
    limit := 0
    verboseLog := false }

/-! ## Lemmas on the fetch -/

theorem foldl_append_if {α : Type} (p : α → Prop) [DecidablePred p] (l : List α) :
    ∀ acc : List α,
      l.foldl (fun acc x => if p x then acc ++ [x] else acc) acc
        = acc ++ l.filter (fun x => decide (p x)) := by
  induction l with
  | nil => intro acc; simp
  | cons x xs ih =>
    intro acc
    by_cases hx : p x <;> simp [List.foldl_cons, List.filter_cons, hx, ih]

theorem filterRepos_eq_wanted (isForked : Bool) (repos : List RepoModel) :
    filterRepos isForked repos = wantedRepos isForked repos := by
  unfold filterRepos wantedRepos
  cases isForked
  · simp only [Bool.false_eq_true, if_false]
    rw [foldl_append_if (fun r : RepoModel => r.Fork = false ∧ r.Name ≠ "" ∧ r.URL ≠ "")]
    simp only [List.nil_append]
    apply List.filter_congr
    intro r _
    by_cases h1 : r.Fork = false <;> by_cases h2 : r.Name = "" <;> by_cases h3 : r.URL = ""
      <;> simp [h1, h2, h3]
  · simp only [if_true]
    rw [foldl_append_if (fun r : RepoModel => r.Name ≠ "" ∧ r.URL ≠ "")]
    simp only [List.nil_append]
    apply List.filter_congr
    intro r _
    by_cases h2 : r.Name = "" <;> by_cases h3 : r.URL = "" <;> simp [h2, h3]

theorem requestCount_append (a b : List Event) :
    requestCount (a ++ b) = requestCount a + requestCount b := by
  simp [requestCount, List.countP_append]

theorem sleeps_append (a b : List Event) : sleeps (a ++ b) = sleeps a ++ sleeps b := by
  simp [sleeps, List.filterMap_append]

theorem GetRepos_of_fetch (lib : StdLib) (w : World) (client : HttpClient) (name : String)
    (isOrg isPrivate isForked makeFile : Bool) (res : Response) (tr : List Event)
    (hfetch : retryLoop client (githubURL lib name isOrg isPrivate) 3 0 Fetch.start
      = ⟨some res, none, tr, false⟩) :
    GetRepos lib w client name isOrg isPrivate isForked makeFile
      = ((processResponse lib w res isForked makeFile).1,
          tr ++ (processResponse lib w res isForked makeFile).2) := by
  simp [GetRepos, hfetch]

theorem retryLoop_retry (client : HttpClient) (url : String) (left i : Nat) (st : Fetch)
    (h : (client i url).err ≠ none ∨
      ∃ r, (client i url).err = none ∧ (client i url).res = some r ∧ r.StatusCode ≠ 200) :
    ∃ extra, requestCount extra = 0 ∧
      retryLoop client url (left + 1) i st
        = retryLoop client url left (i + 1)
            ⟨(client i url).res, (client i url).err,
              st.trace ++ [Event.request url] ++ extra, false⟩ := by
  rcases h with h | ⟨r, he, hr, hs⟩
  · cases hE : (client i url).err with
    | none => exact absurd hE h
    | some e =>
      refine ⟨[Event.logError (i + 1) e, Event.sleep (2 * Second)], by simp [requestCount], ?_⟩
      simp [retryLoop, hE]
  · refine ⟨[Event.logStatus (i + 1) r.StatusCode, Event.sleep (2 * Second)],
      by simp [requestCount], ?_⟩
    simp [retryLoop, he, hr, hs]

theorem retryLoop_success (client : HttpClient) (url : String) (left i : Nat) (st : Fetch)
    (res : Response)
    (h : (client i url).err = none ∧ (client i url).res = some res ∧ res.StatusCode = 200) :
    retryLoop client url (left + 1) i st
      = ⟨some res, none, st.trace ++ [Event.request url], false⟩ := by
  obtain ⟨he, hr, hs⟩ := h
  simp [retryLoop, he, hr, hs]

theorem processResponse_trace (lib : StdLib) (w : World) (res : Response)
    (isForked makeFile : Bool) :
    ∃ rest, sleeps rest = [] ∧
      (processResponse lib w res isForked makeFile).2
        = rateLimitWait lib w res ++ [Event.decodeBody] ++ rest := by
  unfold processResponse
  cases hd : lib.decode res.Body with
  | error e => exact ⟨[], by simp [sleeps], by simp⟩
  | ok repos =>
    refine ⟨(emit lib w (filterRepos isForked repos) makeFile).2, ?_, by simp⟩
    unfold emit
    cases lib.marshalIndent (filterRepos isForked repos) with
    | error e => simp [sleeps]
    | ok jsonData =>
      cases makeFile
      · simp [sleeps]
      · cases w.create "repos.json" with
        | some e => simp [sleeps]
        | none =>
          cases hw : w.write jsonData with
          | some e => simp [sleeps, hw]
          | none => simp [sleeps, hw]

theorem processResponse_noRequest (lib : StdLib) (w : World) (res : Response)
    (isForked makeFile : Bool) :
    requestCount (processResponse lib w res isForked makeFile).2 = 0 := by
  have hwait : requestCount (rateLimitWait lib w res) = 0 := by
    unfold rateLimitWait
    split <;> simp [requestCount]
  unfold processResponse
  cases lib.decode res.Body with
  | error e =>
    simp only [requestCount_append, hwait]
    simp [requestCount]
  | ok repos =>
    have hemit : requestCount (emit lib w (filterRepos isForked repos) makeFile).2 = 0 := by
      unfold emit
      cases lib.marshalIndent (filterRepos isForked repos) with
      | error e => simp [requestCount]
      | ok jsonData =>
        cases makeFile
        · simp [requestCount]
        · cases w.create "repos.json" with
          | some e => simp [requestCount]
          | none =>
            cases hw : w.write jsonData with
            | some e => simp [requestCount, hw]
            | none => simp [requestCount, hw]
    simp only [requestCount_append, hwait, hemit]
    simp [requestCount]

/-! ## Theorems on GetRepos and RepoByLanguage -/

/-- C1: when the fetch ends with a response whose body decodes to `repos`, the
collection `GetRepos` serialises and returns is exactly the records of `repos`,
in order, with non-empty name and URL and, when `isForked` is false, with the
fork flag unset, for every setting of `isOrg`, `isPrivate` and `makeFile`: any
text it returns is the serialisation of that collection, it does return it when
serialising and (with `makeFile`) writing the file succeed, and that collection
is an ordered sub-collection of the response holding precisely those records. -/
theorem GetRepos_returns_wanted_records (lib : StdLib) (w : World) (client : HttpClient)
    (name : String) (isOrg isPrivate isForked makeFile : Bool)
    (res : Response) (tr : List Event) (repos : List RepoModel)
    (hfetch : retryLoop client (githubURL lib name isOrg isPrivate) 3 0 Fetch.start
      = ⟨some res, none, tr, false⟩)
    (hdec : lib.decode res.Body = .ok repos) :
    (∀ s, (GetRepos lib w client name isOrg isPrivate isForked makeFile).1 = Outcome.ok s →
        lib.marshalIndent (wantedRepos isForked repos) = .ok s) ∧
    (∀ s, lib.marshalIndent (wantedRepos isForked repos) = .ok s →
        (makeFile = true → w.create "repos.json" = none ∧ w.write s = none) →
        (GetRepos lib w client name isOrg isPrivate isForked makeFile).1 = Outcome.ok s) ∧
    (wantedRepos isForked repos).Sublist repos ∧
    (∀ r, r ∈ wantedRepos isForked repos ↔
        r ∈ repos ∧ r.Name ≠ "" ∧ r.URL ≠ "" ∧ (isForked = false → r.Fork = false)) := by
  have hG := GetRepos_of_fetch lib w client name isOrg isPrivate isForked makeFile res tr hfetch
  have hP : (processResponse lib w res isForked makeFile).1
      = (emit lib w (wantedRepos isForked repos) makeFile).1 := by
    simp [processResponse, hdec, filterRepos_eq_wanted]
  refine ⟨?_, ?_, ?_, ?_⟩
  · intro s hs
    rw [hG] at hs
    simp only [hP] at hs
    unfold emit at hs
    cases hm : lib.marshalIndent (wantedRepos isForked repos) with
    | error e => simp [hm] at hs
    | ok jsonData =>
      simp only [hm] at hs
      cases makeFile
      · simp at hs; rw [hs]
      · cases hc : w.create "repos.json" with
        | some e => simp [hc] at hs
        | none =>
          cases hw : w.write jsonData with
          | some e => simp [hc, hw] at hs
          | none => simp [hc, hw] at hs; rw [hs]
  · intro s hm hfile
    rw [hG]
    simp only [hP]
    unfold emit
    simp only [hm]
    cases makeFile
    · simp
    · obtain ⟨hc, hw⟩ := hfile rfl
      simp [hc, hw]
  · exact List.filter_sublist repos
  · intro r
    cases isForked <;> simp [wantedRepos, List.mem_filter]

/-- C1, at a concrete input: of the four sample records only the plain one is
returned when forks are excluded, and `repos.json` is written. -/
theorem GetRepos_returns_wanted_records_witness :
    (GetRepos sampleLib sampleWorld thirdTimeClient "acme" false false false true).1
        = Outcome.ok "a" ∧
      wantedRepos false sampleRepos = [⟨⟨"a", "u1"⟩, "Go", false, false, 1⟩] :=
  ⟨(GetRepos_returns_wanted_records sampleLib sampleWorld thirdTimeClient "acme"
      false false false true ⟨200, noHeader, sampleBody⟩ _ sampleRepos rfl rfl).2.1 "a" rfl
      (fun _ => ⟨rfl, rfl⟩),
    by decide⟩

/-- C2: for a well-formed collection `RepoByLanguage` succeeds and returns the
serialisation of exactly the input records whose language equals the argument,
in input order; that collection is a sub-collection of the input, and when no
record matches the result is the serialised empty collection, not an error.
(`hmar`: `json.MarshalIndent` does not fail on a `[]RepoModel`.) -/
theorem RepoByLanguage_selects_language (lib : StdLib) (jsonStr language : String)
    (repos : List RepoModel)
    (hwf : lib.unmarshalModels jsonStr = .ok repos)
    (hmar : ∀ rs, ∃ s, lib.marshalIndent rs = .ok s) :
    (∃ s, RepoByLanguage lib jsonStr language = .ok s ∧
        lib.marshalIndent (wantedByLanguage language repos) = .ok s) ∧
    (wantedByLanguage language repos).Sublist repos ∧
    (∀ r, r ∈ wantedByLanguage language repos ↔ r ∈ repos ∧ r.Lang = language) ∧
    ((∀ r ∈ repos, r.Lang ≠ language) →
        wantedByLanguage language repos = [] ∧
        ∃ s, RepoByLanguage lib jsonStr language = .ok s ∧ lib.marshalIndent [] = .ok s) := by
  have hfold : repos.foldl
      (fun filteredRepos repo =>
        if repo.Lang = language then filteredRepos ++ [repo] else filteredRepos) []
      = wantedByLanguage language repos := by
    rw [foldl_append_if (fun r : RepoModel => r.Lang = language)]
    simp [wantedByLanguage]
  have hrun : ∀ s, lib.marshalIndent (wantedByLanguage language repos) = .ok s →
      RepoByLanguage lib jsonStr language = .ok s := by
    intro s hs
    simp [RepoByLanguage, hwf, hfold, hs]
  refine ⟨?_, List.filter_sublist repos, ?_, ?_⟩
  · obtain ⟨s, hs⟩ := hmar (wantedByLanguage language repos)
    exact ⟨s, hrun s hs, hs⟩
  · intro r
    simp [wantedByLanguage, List.mem_filter]
  · intro hnone
    have hempty : wantedByLanguage language repos = [] := by
      simp only [wantedByLanguage, List.filter_eq_nil_iff]
      intro r hr
      simpa using hnone r hr
    refine ⟨hempty, ?_⟩
    obtain ⟨s, hs⟩ := hmar []
    exact ⟨s, hrun s (by rw [hempty]; exact hs), hs⟩

/-- C2, at a concrete input: the two Go records are returned for "Go", and
nothing, without error, for "go". -/
theorem RepoByLanguage_selects_language_witness :
    RepoByLanguage sampleLib sampleBody "Go" = .ok "a, f" ∧
      RepoByLanguage sampleLib sampleBody "go" = .ok "" ∧
      wantedByLanguage "go" sampleRepos = [] :=
  have h := RepoByLanguage_selects_language sampleLib sampleBody "go" sampleRepos rfl
    (fun rs => ⟨_, rfl⟩)
  ⟨rfl, rfl, (h.2.2.2 (by decide)).1⟩

/-- C3: when `Do` fails on each of the three attempts, `GetRepos` calls the
client exactly three times and returns the error of the third attempt. -/
theorem GetRepos_all_attempts_fail (lib : StdLib) (w : World) (client : HttpClient)
    (name : String) (isOrg isPrivate isForked makeFile : Bool) (errs : Nat → GoError)
    (hfail : ∀ i, i < 3 →
      (client i (githubURL lib name isOrg isPrivate)).err = some (errs i)) :
    requestCount (GetRepos lib w client name isOrg isPrivate isForked makeFile).2 = 3 ∧
    (GetRepos lib w client name isOrg isPrivate isForked makeFile).1
      = Outcome.error (errs 2) := by
  have h0 := hfail 0 (by decide)
  have h1 := hfail 1 (by decide)
  have h2 := hfail 2 (by decide)
  simp [GetRepos, retryLoop, Fetch.start, h0, h1, h2, requestCount]

/-- C3, at a concrete input: three time-outs, and the third is returned. -/
theorem GetRepos_all_attempts_fail_witness :
    requestCount (GetRepos sampleLib sampleWorld failingClient "acme" false false false false).2
        = 3 ∧
      (GetRepos sampleLib sampleWorld failingClient "acme" false false false false).1
        = Outcome.error "timeout 3" :=
  GetRepos_all_attempts_fail sampleLib sampleWorld failingClient "acme" false false false false
    (fun i => if i = 0 then "timeout 1" else if i = 1 then "timeout 2" else "timeout 3")
    (fun _ _ => rfl)

/-- C10: if attempt `k` (1, 2 or 3) is the first to return status 200, each
earlier attempt being a transport error or a response with another status, then
`GetRepos` issues exactly `k` requests, the last one being attempt `k`, and goes
on with the `k`-th response: its result is what decoding and filtering that
response gives, whatever the earlier attempts returned. -/
theorem GetRepos_first_success (lib : StdLib) (w : World) (client : HttpClient)
    (name : String) (isOrg isPrivate isForked makeFile : Bool) (k : Nat) (res : Response)
    (hk : 1 ≤ k ∧ k ≤ 3)
    (hearlier : ∀ i, i + 1 < k →
      (client i (githubURL lib name isOrg isPrivate)).err ≠ none ∨
      ∃ r, (client i (githubURL lib name isOrg isPrivate)).err = none ∧
        (client i (githubURL lib name isOrg isPrivate)).res = some r ∧ r.StatusCode ≠ 200)
    (hgood : (client (k - 1) (githubURL lib name isOrg isPrivate)).err = none ∧
      (client (k - 1) (githubURL lib name isOrg isPrivate)).res = some res ∧
      res.StatusCode = 200) :
    requestCount (GetRepos lib w client name isOrg isPrivate isForked makeFile).2 = k ∧
    (GetRepos lib w client name isOrg isPrivate isForked makeFile).1
      = (processResponse lib w res isForked makeFile).1 ∧
    ∃ before, requestCount before = k - 1 ∧
      (GetRepos lib w client name isOrg isPrivate isForked makeFile).2
        = before ++ [Event.request (githubURL lib name isOrg isPrivate)]
            ++ (processResponse lib w res isForked makeFile).2 := by
  have hfetch : ∃ before, requestCount before = k - 1 ∧
      retryLoop client (githubURL lib name isOrg isPrivate) 3 0 Fetch.start
        = ⟨some res, none, before ++ [Event.request (githubURL lib name isOrg isPrivate)],
            false⟩ := by
    obtain ⟨hk1, hk3⟩ := hk
    have hcases : k = 1 ∨ k = 2 ∨ k = 3 := by omega
    rcases hcases with rfl | rfl | rfl
    · refine ⟨[], by simp [requestCount], ?_⟩
      rw [retryLoop_success client _ 2 0 Fetch.start res hgood]
      simp [Fetch.start]
    · obtain ⟨x0, hx0, e0⟩ := retryLoop_retry client (githubURL lib name isOrg isPrivate) 2 0
        Fetch.start (hearlier 0 (by decide))
      refine ⟨[Event.request (githubURL lib name isOrg isPrivate)] ++ x0, ?_, ?_⟩
      · rw [requestCount_append, hx0]; simp [requestCount]
      · rw [e0, retryLoop_success client _ 1 1 _ res hgood]
        simp [Fetch.start]
    · obtain ⟨x0, hx0, e0⟩ := retryLoop_retry client (githubURL lib name isOrg isPrivate) 2 0
        Fetch.start (hearlier 0 (by decide))
      obtain ⟨x1, hx1, e1⟩ := retryLoop_retry client (githubURL lib name isOrg isPrivate) 1 1
        ⟨(client 0 (githubURL lib name isOrg isPrivate)).res,
          (client 0 (githubURL lib name isOrg isPrivate)).err,
          Fetch.start.trace ++ [Event.request (githubURL lib name isOrg isPrivate)] ++ x0,
          false⟩ (hearlier 1 (by decide))
      refine ⟨[Event.request (githubURL lib name isOrg isPrivate)] ++ x0
        ++ [Event.request (githubURL lib name isOrg isPrivate)] ++ x1, ?_, ?_⟩
      · simp only [requestCount_append, hx0, hx1]; simp [requestCount]
      · rw [e0, e1, retryLoop_success client _ 0 2 _ res hgood]
        simp [Fetch.start]
  obtain ⟨before, hb, hf⟩ := hfetch
  have hG := GetRepos_of_fetch lib w client name isOrg isPrivate isForked makeFile res _ hf
  have hnoreq := processResponse_noRequest lib w res isForked makeFile
  refine ⟨?_, by rw [hG], before, hb, by rw [hG]⟩
  rw [hG]
  simp only [requestCount_append, hb, hnoreq]
  have : requestCount [Event.request (githubURL lib name isOrg isPrivate)] = 1 := by
    simp [requestCount]
  omega

/-- C10, at a concrete input: a transport error, then status 503, then status
200: three requests, and the records of the third response are returned. -/
theorem GetRepos_first_success_witness :
    requestCount (GetRepos sampleLib sampleWorld thirdTimeClient "acme" false false true
        false).2 = 3 ∧
      (GetRepos sampleLib sampleWorld thirdTimeClient "acme" false false true false).1
        = Outcome.ok "a, f" :=
  have h := GetRepos_first_success sampleLib sampleWorld thirdTimeClient "acme" false false
    true false 3 ⟨200, noHeader, sampleBody⟩ (by decide)
    (fun i hi => by
      have hi2 : i = 0 ∨ i = 1 := by omega
      rcases hi2 with rfl | rfl
      · exact Or.inl (by simp [thirdTimeClient])
      · exact Or.inr ⟨⟨503, noHeader, ""⟩, rfl, rfl, by decide⟩)
    ⟨rfl, rfl, rfl⟩
  ⟨h.1, h.2.1.trans rfl⟩

/-- C4 fails on the code: when all three attempts return a response with a
status other than 200 (and no error), `GetRepos` makes three requests and then
treats the third response as a success: its result is what decoding and
filtering the body of that response gives. -/
theorem GetRepos_bad_status_falls_through (lib : StdLib) (w : World) (client : HttpClient)
    (name : String) (isOrg isPrivate isForked makeFile : Bool) (rs : Nat → Response)
    (hbad : ∀ i, i < 3 →
      (client i (githubURL lib name isOrg isPrivate)).err = none ∧
      (client i (githubURL lib name isOrg isPrivate)).res = some (rs i) ∧
      (rs i).StatusCode ≠ 200) :
    requestCount (GetRepos lib w client name isOrg isPrivate isForked makeFile).2 = 3 ∧
    (GetRepos lib w client name isOrg isPrivate isForked makeFile).1
      = (processResponse lib w (rs 2) isForked makeFile).1 := by
  obtain ⟨e0, r0, s0⟩ := hbad 0 (by decide)
  obtain ⟨e1, r1, s1⟩ := hbad 1 (by decide)
  obtain ⟨e2, r2, s2⟩ := hbad 2 (by decide)
  have hf : retryLoop client (githubURL lib name isOrg isPrivate) 3 0 Fetch.start
      = ⟨some (rs 2), none,
          [Event.request (githubURL lib name isOrg isPrivate),
            Event.logStatus 1 (rs 0).StatusCode, Event.sleep (2 * Second),
            Event.request (githubURL lib name isOrg isPrivate),
            Event.logStatus 2 (rs 1).StatusCode, Event.sleep (2 * Second),
            Event.request (githubURL lib name isOrg isPrivate),
            Event.logStatus 3 (rs 2).StatusCode, Event.sleep (2 * Second)], false⟩ := by
    simp [retryLoop, Fetch.start, e0, r0, s0, e1, r1, s1, e2, r2, s2]
  have hG := GetRepos_of_fetch lib w client name isOrg isPrivate isForked makeFile _ _ hf
  have hnoreq := processResponse_noRequest lib w (rs 2) isForked makeFile
  refine ⟨?_, by rw [hG]⟩
  rw [hG]
  simp only [requestCount_append, hnoreq]
  simp [requestCount]

/-- C4, at the failing input: three answers with status 500 and a well-formed
body; `GetRepos` returns the records of that body and no error. -/
theorem GetRepos_bad_status_falls_through_witness :
    requestCount (GetRepos sampleLib sampleWorld status500Client "acme" false false false
        false).2 = 3 ∧
      (GetRepos sampleLib sampleWorld status500Client "acme" false false false false).1
        = Outcome.ok "a" :=
  have h := GetRepos_bad_status_falls_through sampleLib sampleWorld status500Client "acme"
    false false false false (fun _ => ⟨500, noHeader, sampleBody⟩)
    (fun _ _ => ⟨rfl, rfl, by simp⟩)
  ⟨h.1, h.2.trans rfl⟩

/-- C8 fails on the code as stated: with no calls remaining and a reset time
`T` = 20000000000 s (later than the clock, 1700000000 s) `GetRepos` sleeps for
the largest `time.Duration`, which is shorter than `T` minus now, so the sleep
ends before `T`. -/
theorem GetRepos_far_reset_sleeps_less :
    sampleWorld.now < sampleLib.parseInt "20000000000" * Second ∧
      (GetRepos sampleLib sampleWorld farResetClient "acme" false false false false).2
        = [Event.request "https://api.github.com/users/acme/repos?per_page=1000",
            Event.sleep maxDuration, Event.decodeBody] ∧
      maxDuration < sampleLib.parseInt "20000000000" * Second - sampleWorld.now := by
  refine ⟨by decide, ?_, by decide⟩
  rfl

/-- C8, amended: let `res` be the response `GetRepos` ends up with.  If its
remaining-calls header is "0" and its reset time `T` is later than the clock and
at most the largest `time.Duration` away, then right after the fetch `GetRepos`
calls `time.Sleep` with `T` minus now, then decodes the body, and sleeps no more
before it returns; if the header is not "0" it decodes the body at once and does
not sleep. -/
theorem GetRepos_rate_limit_stall (lib : StdLib) (w : World) (client : HttpClient)
    (name : String) (isOrg isPrivate isForked makeFile : Bool)
    (res : Response) (tr : List Event)
    (hfetch : retryLoop client (githubURL lib name isOrg isPrivate) 3 0 Fetch.start
      = ⟨some res, none, tr, false⟩) :
    (res.Header.Get "X-Ratelimit-Remaining" = "0" →
      w.now < lib.parseInt (res.Header.Get "X-Ratelimit-Reset") * Second →
      lib.parseInt (res.Header.Get "X-Ratelimit-Reset") * Second - w.now ≤ maxDuration →
      ∃ rest, sleeps rest = [] ∧
        (GetRepos lib w client name isOrg isPrivate isForked makeFile).2
          = tr ++ [Event.sleep
                (lib.parseInt (res.Header.Get "X-Ratelimit-Reset") * Second - w.now),
              Event.decodeBody] ++ rest) ∧
    (res.Header.Get "X-Ratelimit-Remaining" ≠ "0" →
      ∃ rest, sleeps rest = [] ∧
        (GetRepos lib w client name isOrg isPrivate isForked makeFile).2
          = tr ++ [Event.decodeBody] ++ rest) := by
  have hG := GetRepos_of_fetch lib w client name isOrg isPrivate isForked makeFile res tr hfetch
  obtain ⟨rest, hrest, htr⟩ := processResponse_trace lib w res isForked makeFile
  constructor
  · intro hzero hlater hfits
    refine ⟨rest, hrest, ?_⟩
    have hwait : rateLimitWait lib w res
        = [Event.sleep (lib.parseInt (res.Header.Get "X-Ratelimit-Reset") * Second - w.now)] := by
      have h1 : ¬ lib.parseInt (res.Header.Get "X-Ratelimit-Reset") * Second - w.now
          > maxDuration := by omega
      have h2 : ¬ lib.parseInt (res.Header.Get "X-Ratelimit-Reset") * Second - w.now
          < minDuration := by
        have : minDuration < 0 := by decide
        omega
      simp [rateLimitWait, hzero, timeUntilUnix, h1, h2]
    rw [hG, htr, hwait]
    simp
  · intro hnz
    refine ⟨rest, hrest, ?_⟩
    have hwait : rateLimitWait lib w res = [] := by simp [rateLimitWait, hnz]
    rw [hG, htr, hwait]
    simp

/-- C8, amended, at a concrete input: the reset is 60 s ahead, and the one sleep
lasts 60 s. -/
theorem GetRepos_rate_limit_stall_witness :
    ∃ rest, sleeps rest = [] ∧
      (GetRepos sampleLib sampleWorld limitedClient "acme" false false false false).2
        = [Event.request "https://api.github.com/users/acme/repos?per_page=1000"]
            ++ [Event.sleep (1700000060 * Second - 1700000000 * Second), Event.decodeBody]
            ++ rest :=
  (GetRepos_rate_limit_stall sampleLib sampleWorld limitedClient "acme"
    false false false false ⟨200, limitHeader "1700000060", sampleBody⟩ _ rfl).1
    rfl (by decide) (by decide)

/-! ## Lemmas on the goroutines -/

theorem countP_set_add {α : Type} (p : α → Bool) (l : List α) (i : Nat) (a x : α)
    (h : l[i]? = some x) :
    (l.set i a).countP p + (if p x then 1 else 0)
      = l.countP p + (if p a then 1 else 0) := by
  induction l generalizing i with
  | nil => simp at h
  | cons y ys ih =>
    cases i with
    | zero =>
      simp only [List.getElem?_cons_zero, Option.some.injEq] at h
      subst h
      simp only [List.set_cons_zero, List.countP_cons]
      omega
    | succ j =>
      simp only [List.getElem?_cons_succ] at h
      have := ih j h
      simp only [List.set_cons_succ, List.countP_cons]
      omega

theorem sum_map_set_add {α : Type} (f : α → Nat) (l : List α) (i : Nat) (a x : α)
    (h : l[i]? = some x) :
    ((l.set i a).map f).sum + f x = (l.map f).sum + f a := by
  induction l generalizing i with
  | nil => simp at h
  | cons y ys ih =>
    cases i with
    | zero =>
      simp only [List.getElem?_cons_zero, Option.some.injEq] at h
      subst h
      simp only [List.set_cons_zero, List.map_cons, List.sum_cons]
      omega
    | succ j =>
      simp only [List.getElem?_cons_succ] at h
      have := ih j h
      simp only [List.set_cons_succ, List.map_cons, List.sum_cons]
      omega

theorem indicator_le_countP {α : Type} (p : α → Bool) (l : List α) (i : Nat) (x : α)
    (h : l[i]? = some x) : (if p x then 1 else 0) ≤ l.countP p := by
  by_cases hp : p x = true
  · have : 0 < l.countP p := by
      rw [List.countP_pos_iff]
      exact ⟨x, List.getElem?_mem h, hp⟩
    simp only [hp, if_true]
    omega
  · simp [hp]

/-- What one step does.  Either goroutine `t` moves from `old` to the next point
`new` of its body, or the function returns. -/
theorem step_effect (c : Run) (s s1 : State) (a : Action) (h : step c s a = some s1) :
    (∃ t old new, s.pcs[t]? = some old ∧ s1.pcs = s.pcs.set t new ∧
        new.rank = old.rank + 1 ∧
        (new = Pc.admitted → s.sem < c.limit) ∧
        s1.sem + (if old.holds then 1 else 0) = s.sem + (if new.holds then 1 else 0) ∧
        s1.wg + (if old.pending then 1 else 0) = s.wg + (if new.pending then 1 else 0) ∧
        s1.counter = (if new = Pc.counted then (s.counter + 1) % 2 ^ 64 else s.counter) ∧
        s1.returned = s.returned ∧
        (∀ n, Output.summary n ∈ s1.output ↔ Output.summary n ∈ s.output) ∧
        (new ≠ Pc.executed → s1.calls = s.calls) ∧
        (new = Pc.executed → ∃ repo fs, c.repos[t]? = some repo ∧
          s1.calls = s.calls ++ [(t, syncCommand c.lib fs c.dir repo)])) ∨
    (a = Action.finish ∧ s.wg = 0 ∧ s.returned = false ∧
      s1 = { s with returned := true,
                    output := s.output ++ [Output.summary c.repos.length] }) := by
  cases a with
  | acquire t =>
    simp only [step] at h
    split at h
    · rename_i hg
      simp only [Option.some.injEq] at h
      subst h
      exact Or.inl ⟨t, Pc.spawned, Pc.admitted, hg.1, rfl, rfl, fun _ => hg.2,
        by simp [Pc.holds], by simp [Pc.pending, Pc.rank], by simp, rfl,
        fun _ => Iff.rfl, fun _ => rfl, by simp⟩
    · simp at h
  | exec t fs r =>
    simp only [step] at h
    split at h
    · simp at h
    · rename_i repo hrepo
      split at h
      · rename_i hg
        simp only [Option.some.injEq] at h
        subst h
        refine Or.inl ⟨t, Pc.admitted, Pc.executed, hg, rfl, rfl, by simp,
          by simp [Pc.holds], by simp [Pc.pending, Pc.rank], by simp, rfl,
          ?_, by simp, fun _ => ⟨repo, fs, hrepo, rfl⟩⟩
        intro n
        cases hv : c.verboseLog <;> simp [taskOutput, hv]
      · simp at h
  | addCounter t =>
    simp only [step] at h
    split at h
    · rename_i hg
      simp only [Option.some.injEq] at h
      subst h
      exact Or.inl ⟨t, Pc.executed, Pc.counted, hg, rfl, rfl, by simp,
        by simp [Pc.holds], by simp [Pc.pending, Pc.rank], by simp, rfl,
        fun _ => Iff.rfl, fun _ => rfl, by simp⟩
    · simp at h
  | setSuffix t =>
    simp only [step] at h
    split at h
    · rename_i hg
      simp only [Option.some.injEq] at h
      subst h
      exact Or.inl ⟨t, Pc.counted, Pc.reported, hg, rfl, rfl, by simp,
        by simp [Pc.holds], by simp [Pc.pending, Pc.rank], by simp, rfl,
        fun _ => Iff.rfl, fun _ => rfl, by simp⟩
    · simp at h
  | wgDone t =>
    simp only [step] at h
    split at h
    · rename_i hg
      simp only [Option.some.injEq] at h
      subst h
      exact Or.inl ⟨t, Pc.reported, Pc.signalled, hg, rfl, rfl, by simp,
        by simp [Pc.holds], by simp [Pc.pending, Pc.rank], by simp, rfl,
        fun _ => Iff.rfl, fun _ => rfl, by simp⟩
    · simp at h
  | release t =>
    simp only [step] at h
    split at h
    · rename_i hg
      simp only [Option.some.injEq] at h
      subst h
      refine Or.inl ⟨t, Pc.signalled, Pc.released, hg.1, rfl, rfl, by simp,
        ?_, by simp [Pc.pending, Pc.rank], by simp, rfl,
        fun _ => Iff.rfl, fun _ => rfl, by simp⟩
      have := hg.2
      simp only [Pc.holds]
      simp
      omega
    · simp at h
  | finish =>
    simp only [step] at h
    split at h
    · rename_i hg
      simp only [Option.some.injEq] at h
      exact Or.inr ⟨rfl, hg.1, hg.2, h.symm⟩
    · simp at h

theorem executedAt_set (l : List Pc) (t u : Nat) (old new : Pc) (h : l[t]? = some old) :
    executedAt (l.set t new) u + (if u = t ∧ old.hasExecuted = true then 1 else 0)
      = executedAt l u + (if u = t ∧ new.hasExecuted = true then 1 else 0) := by
  have hlt : t < l.length := by
    rcases List.getElem?_eq_some_iff.mp h with ⟨hlt, _⟩
    exact hlt
  by_cases hut : u = t
  · subst hut
    simp only [executedAt, List.getElem?_set_self hlt, h, true_and]
    omega
  · have hne : t ≠ u := fun e => hut e.symm
    simp only [executedAt, List.getElem?_set_ne hne, hut, false_and, if_false]

theorem Inv_start (c : Run) : Inv c (State.start c) := by
  refine ⟨?_, ?_, ?_, ?_, ?_, ?_, ?_, ?_, ?_⟩
  · simp [State.start]
  · simp [State.start, active, List.countP_replicate, Pc.holds]
  · simp [State.start]
  · simp [State.start, List.countP_replicate, Pc.pending, Pc.rank]
  · simp [State.start, List.countP_replicate, Pc.hasCounted, Pc.rank]
  · intro t
    simp only [State.start, executedAt, List.map_nil, List.count_nil]
    by_cases ht : t < c.repos.length
    · simp [List.getElem?_replicate, ht, Pc.hasExecuted, Pc.rank]
    · simp [List.getElem?_replicate, ht]
  · intro x hx
    simp [State.start] at hx
  · intro n
    simp [State.start]
  · intro h
    simp [State.start] at h

/-- The invariant survives a step of a goroutine. -/
theorem Inv_step_task (c : Run) (s s1 : State) (t : Nat) (old new : Pc) (hI : Inv c s)
    (hget : s.pcs[t]? = some old) (hpcs : s1.pcs = s.pcs.set t new)
    (hrank : new.rank = old.rank + 1)
    (hadm : new = Pc.admitted → s.sem < c.limit)
    (hsem : s1.sem + (if old.holds then 1 else 0) = s.sem + (if new.holds then 1 else 0))
    (hwg : s1.wg + (if old.pending then 1 else 0) = s.wg + (if new.pending then 1 else 0))
    (hctr : s1.counter = (if new = Pc.counted then (s.counter + 1) % 2 ^ 64 else s.counter))
    (hret : s1.returned = s.returned)
    (hsum : ∀ n, Output.summary n ∈ s1.output ↔ Output.summary n ∈ s.output)
    (hcalls0 : new ≠ Pc.executed → s1.calls = s.calls)
    (hcalls1 : new = Pc.executed → ∃ repo fs, c.repos[t]? = some repo ∧
      s1.calls = s.calls ++ [(t, syncCommand c.lib fs c.dir repo)]) : Inv c s1 := by
  have hH := countP_set_add Pc.holds s.pcs t new old hget
  have hP := countP_set_add Pc.pending s.pcs t new old hget
  have hC := countP_set_add Pc.hasCounted s.pcs t new old hget
  have hposP := indicator_le_countP Pc.pending s.pcs t old hget
  have hE := fun u => executedAt_set s.pcs t u old new hget
  have hsemeq := hI.sem_eq
  have hsemle := hI.sem_le
  have hwgeq := hI.wg_eq
  have hctreq := hI.counter_eq
  have hcnt := hI.calls_count
  have hretwg := hI.returned_wg
  unfold active at hsemeq
  rw [← hpcs] at hH hP hC hE
  have hlen : s1.pcs.length = c.repos.length := by rw [hpcs]; simp [hI.len]
  have hcmd : ∀ x ∈ s1.calls, ∃ repo fs,
      c.repos[x.1]? = some repo ∧ x.2 = syncCommand c.lib fs c.dir repo := by
    intro x hx
    by_cases hnew : new = Pc.executed
    · obtain ⟨repo, fs, hrepo, hc1⟩ := hcalls1 hnew
      rw [hc1] at hx
      rcases List.mem_append.mp hx with hx | hx
      · exact hI.calls_cmd x hx
      · simp only [List.mem_singleton] at hx
        subst hx
        exact ⟨repo, fs, hrepo, rfl⟩
    · rw [hcalls0 hnew] at hx
      exact hI.calls_cmd x hx
  have hsummary : ∀ n, Output.summary n ∈ s1.output ↔
      (s1.returned = true ∧ n = c.repos.length) := by
    intro n
    rw [hsum n, hret]
    exact hI.summary_iff n
  have hcount : ∀ u, (s1.calls.map Prod.fst).count u = executedAt s1.pcs u := by
    intro u
    have hEu := hE u
    have hcu := hcnt u
    by_cases hnew : new = Pc.executed
    · obtain ⟨repo, fs, _, hc1⟩ := hcalls1 hnew
      subst hnew
      have hold : old = Pc.admitted := by
        cases old <;> simp [Pc.rank] at hrank
        rfl
      subst hold
      rw [hc1]
      simp only [List.map_append, List.count_append, List.map_cons, List.map_nil,
        List.count_singleton]
      simp only [Pc.hasExecuted, Pc.rank] at hEu
      by_cases hut : u = t
      · subst hut
        simp at hEu ⊢
        omega
      · have hne : ¬ t = u := fun e => hut e.symm
        simp [hut, hne] at hEu ⊢
        omega
    · rw [hcalls0 hnew]
      have hsame : old.hasExecuted = new.hasExecuted := by
        cases old <;> cases new <;> simp [Pc.rank] at hrank <;>
          simp [Pc.hasExecuted, Pc.rank] at hnew ⊢
      rw [hsame] at hEu
      omega
  generalize s.pcs.countP Pc.holds = nH at hH hsemeq
  generalize hnH1 : s1.pcs.countP Pc.holds = nH1 at hH
  generalize hnP : s.pcs.countP Pc.pending = nP at hP hwgeq hposP
  generalize hnP1 : s1.pcs.countP Pc.pending = nP1 at hP
  generalize hnC : s.pcs.countP Pc.hasCounted = nC at hC hctreq
  generalize hnC1 : s1.pcs.countP Pc.hasCounted = nC1 at hC
  refine ⟨hlen, ?_, ?_, ?_, ?_, hcount, hcmd, hsummary, ?_⟩
  · unfold active
    rw [hnH1]
    omega
  · cases old <;> cases new <;> simp [Pc.rank] at hrank <;>
      simp [Pc.holds] at hsem hadm <;> omega
  · rw [hnP1]
    cases old <;> cases new <;> simp [Pc.rank] at hrank <;>
      simp [Pc.pending, Pc.rank] at hwg hP <;> omega
  · rw [hnC1]
    cases old <;> cases new <;> simp [Pc.rank] at hrank <;>
      simp [Pc.hasCounted, Pc.rank] at hC hctr <;> omega
  · intro hr
    rw [hret] at hr
    have := hretwg hr
    cases old <;> cases new <;> simp [Pc.rank] at hrank <;>
      simp [Pc.pending, Pc.rank] at hwg hposP hP <;> omega

theorem Inv_step (c : Run) (s s1 : State) (a : Action) (hI : Inv c s)
    (h : step c s a = some s1) : Inv c s1 := by
  rcases step_effect c s s1 a h with
    ⟨t, old, new, hget, hpcs, hrank, hadm, hsem, hwg, hctr, hret, hsum, hcalls0, hcalls1⟩
    | ⟨_, hwg0, hret0, rfl⟩
  · exact Inv_step_task c s s1 t old new hI hget hpcs hrank hadm hsem hwg hctr hret hsum
      hcalls0 hcalls1
  · exact
      { len := hI.len
        sem_eq := hI.sem_eq
        sem_le := hI.sem_le
        wg_eq := hI.wg_eq
        counter_eq := hI.counter_eq
        calls_count := hI.calls_count
        calls_cmd := hI.calls_cmd
        summary_iff := by
          intro n
          have := hI.summary_iff n
          simp only [List.mem_append, List.mem_singleton, Output.summary.injEq, this, hret0]
          simp
        returned_wg := fun _ => hwg0 }

theorem Inv_run (c : Run) (acts : List Action) :
    ∀ s s1, Inv c s → run c s acts = some s1 → Inv c s1 := by
  induction acts with
  | nil =>
    intro s s1 hI h
    simp only [run, Option.some.injEq] at h
    subst h
    exact hI
  | cons a rest ih =>
    intro s s1 hI h
    simp only [run] at h
    cases hs : step c s a with
    | none => simp [hs] at h
    | some s2 =>
      simp only [hs] at h
      exact ih s2 s1 (Inv_step c s s2 a hI hs) h

theorem Inv_reachable (c : Run) (acts : List Action) (s : State)
    (h : run c (State.start c) acts = some s) : Inv c s :=
  Inv_run c acts (State.start c) s (Inv_start c) h

/-! ## Progress and termination of the goroutines -/

theorem Pc.rank_le (pc : Pc) : pc.rank ≤ 6 := by
  cases pc <;> simp [Pc.rank]

theorem stepsLeft_step (c : Run) (s s1 : State) (a : Action) (h : step c s a = some s1) :
    stepsLeft s1 + 1 = stepsLeft s := by
  rcases step_effect c s s1 a h with
    ⟨t, old, new, hget, hpcs, hrank, _, _, _, _, hret, _, _, _⟩ | ⟨_, _, hret0, rfl⟩
  · have hsum := sum_map_set_add (fun pc => 6 - pc.rank) s.pcs t new old hget
    have hle := Pc.rank_le new
    simp only [stepsLeft, hpcs, hret]
    simp only at hsum
    omega
  · simp [stepsLeft, hret0]

theorem stepsLeft_run (c : Run) (acts : List Action) :
    ∀ s s1, run c s acts = some s1 → stepsLeft s1 + acts.length = stepsLeft s := by
  induction acts with
  | nil =>
    intro s s1 h
    simp only [run, Option.some.injEq] at h
    subst h
    simp
  | cons a rest ih =>
    intro s s1 h
    simp only [run] at h
    cases hs : step c s a with
    | none => simp [hs] at h
    | some s2 =>
      simp only [hs] at h
      have h1 := ih s2 s1 h
      have h2 := stepsLeft_step c s s2 a hs
      simp only [List.length_cons]
      omega

theorem stepsLeft_start (c : Run) : stepsLeft (State.start c) = 6 * c.repos.length + 1 := by
  simp [stepsLeft, State.start, Pc.rank, List.map_replicate, List.sum_replicate]
  omega

/-- A goroutine that holds a slot can take its next step, whatever the file
system looks like and whatever the executor answers. -/
theorem holder_not_blocked (c : Run) (s : State) (hI : Inv c s) (t : Nat) (pc : Pc)
    (fs : FileSystem) (r : ExecResult)
    (hget : s.pcs[t]? = some pc) (hholds : pc.holds = true) :
    ∃ a s1, nextAction t fs r pc = some a ∧ step c s a = some s1 ∧
      (pc = Pc.signalled → active s1 + 1 = active s ∧ s1.pcs[t]? = some Pc.released) := by
  have hlt : t < s.pcs.length := by
    rcases List.getElem?_eq_some_iff.mp hget with ⟨hlt, _⟩
    exact hlt
  have hlt2 : t < c.repos.length := by rw [← hI.len]; exact hlt
  have hrepo : c.repos[t]? = some c.repos[t] := List.getElem?_eq_getElem hlt2
  have hpos := indicator_le_countP Pc.holds s.pcs t pc hget
  have hsem := hI.sem_eq
  unfold active at hsem
  cases pc with
  | spawned => simp [Pc.holds] at hholds
  | released => simp [Pc.holds] at hholds
  | admitted =>
    have hstep : ∃ s1, step c s (Action.exec t fs r) = some s1 := by simp [step, hrepo, hget]
    obtain ⟨s1, hs1⟩ := hstep
    exact ⟨Action.exec t fs r, s1, rfl, hs1, by simp⟩
  | executed =>
    have hstep : ∃ s1, step c s (Action.addCounter t) = some s1 := by simp [step, hget]
    obtain ⟨s1, hs1⟩ := hstep
    exact ⟨Action.addCounter t, s1, rfl, hs1, by simp⟩
  | counted =>
    have hstep : ∃ s1, step c s (Action.setSuffix t) = some s1 := by simp [step, hget]
    obtain ⟨s1, hs1⟩ := hstep
    exact ⟨Action.setSuffix t, s1, rfl, hs1, by simp⟩
  | reported =>
    have hstep : ∃ s1, step c s (Action.wgDone t) = some s1 := by simp [step, hget]
    obtain ⟨s1, hs1⟩ := hstep
    exact ⟨Action.wgDone t, s1, rfl, hs1, by simp⟩
  | signalled =>
    simp only [Pc.holds, if_true] at hpos
    have hs : 0 < s.sem := by omega
    refine ⟨Action.release t, { s with pcs := s.pcs.set t Pc.released, sem := s.sem - 1 },
      rfl, by simp [step, hget, hs], fun _ => ?_⟩
    have hH := countP_set_add Pc.holds s.pcs t Pc.released Pc.signalled hget
    simp only [Pc.holds] at hH
    simp only [active, List.getElem?_set_self hlt]
    simp at hH
    simp
    omega

/-- With a gate of positive size some step is always possible until the
function has returned, whatever the executor answers. -/
theorem progress (c : Run) (s : State) (hI : Inv c s) (hlim : 0 < c.limit)
    (hret : s.returned = false) (fs : Nat → FileSystem) (rs : Nat → ExecResult) :
    ∃ a s1, step c s a = some s1 ∧ Respects fs rs a := by
  by_cases h1 : ∃ (t : Nat) (pc : Pc), s.pcs[t]? = some pc ∧ pc.holds = true
  · obtain ⟨t, pc, hget, hholds⟩ := h1
    obtain ⟨a, s1, ha, hstep, _⟩ := holder_not_blocked c s hI t pc (fs t) (rs t) hget hholds
    refine ⟨a, s1, hstep, ?_⟩
    cases pc <;> simp [nextAction] at ha <;> subst ha <;> simp [Respects]
  · have hnone : ∀ x ∈ s.pcs, Pc.holds x = false := by
      intro x hx
      obtain ⟨n, hn⟩ := List.mem_iff_getElem?.mp hx
      cases hxh : Pc.holds x with
      | false => rfl
      | true => exact absurd ⟨n, x, hn, hxh⟩ h1
    have hsem0 : s.sem = 0 := by
      rw [hI.sem_eq]
      unfold active
      rw [List.countP_eq_zero]
      intro x hx
      simp [hnone x hx]
    by_cases h2 : ∃ t : Nat, s.pcs[t]? = some Pc.spawned
    · obtain ⟨t, hget⟩ := h2
      have hlt : s.sem < c.limit := by omega
      have hstep : ∃ s1, step c s (Action.acquire t) = some s1 := by simp [step, hget, hlt]
      obtain ⟨s1, hs1⟩ := hstep
      exact ⟨Action.acquire t, s1, hs1, by simp [Respects]⟩
    · have hwg : s.wg = 0 := by
        rw [hI.wg_eq]
        have : s.pcs.countP Pc.pending = 0 := by
          rw [List.countP_eq_zero]
          intro x hx
          obtain ⟨n, hn⟩ := List.mem_iff_getElem?.mp hx
          have hxh := hnone x hx
          cases x with
          | spawned => exact absurd ⟨n, hn⟩ h2
          | released => simp [Pc.pending, Pc.rank]
          | admitted => simp [Pc.holds] at hxh
          | executed => simp [Pc.holds] at hxh
          | counted => simp [Pc.holds] at hxh
          | reported => simp [Pc.holds] at hxh
          | signalled => simp [Pc.holds] at hxh
        rw [this]
        rfl
      have hstep : ∃ s1, step c s Action.finish = some s1 := by simp [step, hwg, hret]
      obtain ⟨s1, hs1⟩ := hstep
      exact ⟨Action.finish, s1, hs1, by simp [Respects]⟩

/-- With a gate of positive size every state can be continued to the return of
the function, under any pattern of executor answers. -/
theorem completes (c : Run) (hlim : 0 < c.limit) (fs : Nat → FileSystem)
    (rs : Nat → ExecResult) :
    ∀ n s, Inv c s → stepsLeft s ≤ n →
      ∃ acts s1, run c s acts = some s1 ∧ s1.returned = true ∧
        ∀ a ∈ acts, Respects fs rs a := by
  intro n
  induction n with
  | zero =>
    intro s _ hn
    have hr : s.returned = true := by
      cases hret : s.returned with
      | true => rfl
      | false => simp [stepsLeft, hret] at hn
    exact ⟨[], s, rfl, hr, by simp⟩
  | succ n ih =>
    intro s hI hn
    cases hret : s.returned with
    | true => exact ⟨[], s, rfl, hret, by simp⟩
    | false =>
      obtain ⟨a, s2, hstep, hresp⟩ := progress c s hI hlim hret fs rs
      have hdec := stepsLeft_step c s s2 a hstep
      obtain ⟨acts, s1, hrun, hr, hall⟩ := ih s2 (Inv_step c s s2 a hI hstep) (by omega)
      refine ⟨a :: acts, s1, by simp [run, hstep, hrun], hr, ?_⟩
      intro b hb
      rcases List.mem_cons.mp hb with rfl | hb
      · exact hresp
      · exact hall b hb

/-- Once the function has returned every goroutine has called `wg.Done()`. -/
theorem all_signalled_of_returned (c : Run) (s : State) (hI : Inv c s)
    (hret : s.returned = true) : ∀ pc ∈ s.pcs, 5 ≤ pc.rank := by
  have hwg := hI.returned_wg hret
  have hz : s.pcs.countP Pc.pending = 0 := by
    have := hI.wg_eq
    omega
  rw [List.countP_eq_zero] at hz
  intro pc hpc
  have := hz pc hpc
  simp [Pc.pending] at this
  exact this

theorem calls_perm_of_returned (c : Run) (s : State) (hI : Inv c s)
    (hret : s.returned = true) :
    (s.calls.map Prod.fst).Perm (List.range c.repos.length) := by
  rw [List.perm_iff_count]
  intro t
  rw [hI.calls_count t]
  have hall := all_signalled_of_returned c s hI hret
  by_cases ht : t < c.repos.length
  · have hlt : t < s.pcs.length := by rw [hI.len]; exact ht
    have hget : s.pcs[t]? = some s.pcs[t] := List.getElem?_eq_getElem hlt
    have hr := hall s.pcs[t] (List.getElem?_mem hget)
    have hex : (s.pcs[t]).hasExecuted = true := by
      simp only [Pc.hasExecuted, decide_eq_true_eq]
      omega
    rw [List.count_eq_one_of_mem (List.nodup_range _) (List.mem_range.mpr ht)]
    simp only [executedAt, hget, hex, if_true]
  · have hnone : s.pcs[t]? = none := by
      rw [List.getElem?_eq_none_iff, hI.len]
      omega
    have hnot : t ∉ List.range c.repos.length := by
      rw [List.mem_range]
      exact ht
    rw [List.count_eq_zero.mpr hnot]
    simp only [executedAt, hnone]

theorem run_nil_of_blocked (c : Run) (s : State) (hblocked : ∀ a, step c s a = none)
    (acts : List Action) (s1 : State) (h : run c s acts = some s1) : s1 = s := by
  cases acts with
  | nil =>
    simp only [run, Option.some.injEq] at h
    exact h.symm
  | cons a rest => simp [run, hblocked a] at h

/-! ## Theorems on CloneReposFromJson -/

/-- C5 fails on the code as stated: with a concurrency limit of 0 the prologue
succeeds and the goroutines are launched, but none can ever enter the gate: in no
schedule is an executor call made or does the function return. -/
theorem CloneReposFromJson_limit_zero_hangs :
    prologue sampleLib fullDisk (fun _ => none) sampleBody "acme" 0 false
        = Prologue.launched zeroRun ∧
      ¬ ∃ acts s, run zeroRun (State.start zeroRun) acts = some s ∧
          (s.returned = true ∨ s.calls ≠ []) := by
  refine ⟨rfl, ?_⟩
  rintro ⟨acts, s, hrun, hbad⟩
  have hblocked : ∀ a, step zeroRun (State.start zeroRun) a = none := by
    intro a
    cases a with
    | acquire t => simp [step, zeroRun]
    | exec t fs r =>
      simp only [step]
      split
      · rfl
      · rcases t with _ | _ | _ | _ | t <;> simp [State.start, zeroRun, sampleRepos]
    | addCounter t =>
      rcases t with _ | _ | _ | _ | t <;> simp [step, State.start, zeroRun, sampleRepos]
    | setSuffix t =>
      rcases t with _ | _ | _ | _ | t <;> simp [step, State.start, zeroRun, sampleRepos]
    | wgDone t =>
      rcases t with _ | _ | _ | _ | t <;> simp [step, State.start, zeroRun, sampleRepos]
    | release t =>
      rcases t with _ | _ | _ | _ | t <;> simp [step, State.start, zeroRun, sampleRepos]
    | finish => simp [step, State.start, zeroRun, sampleRepos]
  have hs := run_nil_of_blocked zeroRun _ hblocked acts s hrun
  subst hs
  simp [State.start] at hbad

/-- C5, amended: with well-formed JSON input, a usable root directory and a
concurrency limit of at least 1, the goroutines are launched, one per item, and
for every pattern of failing clone and pull operations there is a schedule that
runs to the return of the function; no schedule has more than `6 * N + 1` steps
or gets stuck before the function has returned, whatever the executor answers;
and whenever the function has returned (it returns `nil`), exactly one executor
call was made for each of the `N` items, each the clone or pull of that item,
and the one summary printed gives the count `N`. -/
theorem CloneReposFromJson_isolates_failures (lib : StdLib) (fs0 : FileSystem)
    (mkdir : String → Option GoError) (jsonStr name : String) (concurrentLimit : Int)
    (verboseLog : Bool) (repos : List Repo)
    (hjson : lib.unmarshalRepos jsonStr = .ok repos)
    (hdir : os_IsNotExist (fs0 name) = true → mkdir name = none)
    (hlimit : 1 ≤ concurrentLimit) :
    prologue lib fs0 mkdir jsonStr name concurrentLimit verboseLog
      = Prologue.launched ⟨lib, repos, name, concurrentLimit.toNat, verboseLog⟩ ∧
    (∀ (fs : Nat → FileSystem) (rs : Nat → ExecResult),
      ∃ acts s,
        run ⟨lib, repos, name, concurrentLimit.toNat, verboseLog⟩
          (State.start ⟨lib, repos, name, concurrentLimit.toNat, verboseLog⟩) acts = some s ∧
        s.returned = true ∧ ∀ a ∈ acts, Respects fs rs a) ∧
    (∀ acts s,
      run ⟨lib, repos, name, concurrentLimit.toNat, verboseLog⟩
        (State.start ⟨lib, repos, name, concurrentLimit.toNat, verboseLog⟩) acts = some s →
      acts.length ≤ 6 * repos.length + 1 ∧
      (s.returned = false → ∀ (fs : Nat → FileSystem) (rs : Nat → ExecResult),
        ∃ a s1, step ⟨lib, repos, name, concurrentLimit.toNat, verboseLog⟩ s a = some s1 ∧
          Respects fs rs a) ∧
      (s.returned = true →
        (s.calls.map Prod.fst).Perm (List.range repos.length) ∧
        (∀ x ∈ s.calls, ∃ repo fs,
          repos[x.1]? = some repo ∧ x.2 = syncCommand lib fs name repo) ∧
        (∀ n, Output.summary n ∈ s.output ↔ n = repos.length))) := by
  have hlim : 0 < (⟨lib, repos, name, concurrentLimit.toNat, verboseLog⟩ : Run).limit := by
    show 0 < concurrentLimit.toNat
    omega
  refine ⟨?_, ?_, ?_⟩
  · have hneg : ¬ concurrentLimit < 0 := by omega
    unfold prologue
    simp only [hjson]
    cases hx : os_IsNotExist (fs0 name) with
    | false => simp [hneg]
    | true => simp [hdir hx, hneg]
  · intro fs rs
    exact completes _ hlim fs rs _ _ (Inv_start _) (Nat.le_refl _)
  · intro acts s hrun
    have hI := Inv_reachable _ acts s hrun
    have hlen := stepsLeft_run _ acts _ s hrun
    rw [stepsLeft_start] at hlen
    refine ⟨?_, ?_, ?_⟩
    · show acts.length ≤ 6 * repos.length + 1
      have : (⟨lib, repos, name, concurrentLimit.toNat, verboseLog⟩ : Run).repos.length
          = repos.length := rfl
      omega
    · intro hret fs rs
      exact progress _ s hI hlim hret fs rs
    · intro hret
      refine ⟨calls_perm_of_returned _ s hI hret, hI.calls_cmd, ?_⟩
      intro n
      rw [hI.summary_iff n]
      simp [hret]

/-- C5, amended, at a concrete input: two items behind a gate of size 1; the
clone of the first fails, and the schedule still ends with two calls, the
summary "2" and the return of the function. -/
theorem CloneReposFromJson_isolates_failures_witness :
    run sampleRun (State.start sampleRun) sampleSchedule = some sampleFinal ∧
      (sampleFinal.calls.map Prod.fst).Perm (List.range 2) ∧
      (∀ n, Output.summary n ∈ sampleFinal.output ↔ n = 2) :=
  have h := (CloneReposFromJson_isolates_failures sampleLib fullDisk (fun _ => none)
    "[a b]" "acme" 1 false [⟨"a", "u1"⟩, ⟨"b", "u2"⟩] rfl (fun _ => rfl) (by decide)).2.2
    sampleSchedule sampleFinal rfl
  ⟨rfl, (h.2.2 rfl).1, (h.2.2 rfl).2.2⟩

/-- C6 fails on the code: `counter` starts at 1 (line 209) and every goroutine
adds 1 to it exactly once, so in every schedule, for every pattern of failures,
once the function has returned `counter` is `N + 1` (as a `uint64`), not `N`. -/
theorem CloneReposFromJson_counter_after_run (c : Run) (acts : List Action) (s : State)
    (hrun : run c (State.start c) acts = some s) (hret : s.returned = true) :
    s.counter = (c.repos.length + 1) % 2 ^ 64 ∧
    (c.repos.length + 1 < 2 ^ 64 → s.counter ≠ c.repos.length) := by
  have hI := Inv_reachable c acts s hrun
  have hall := all_signalled_of_returned c s hI hret
  have hcounted : s.pcs.countP Pc.hasCounted = s.pcs.length := by
    rw [List.countP_eq_length]
    intro pc hpc
    have := hall pc hpc
    simp only [Pc.hasCounted, decide_eq_true_eq]
    omega
  have hctr : s.counter = (c.repos.length + 1) % 2 ^ 64 := by
    rw [hI.counter_eq, hcounted, hI.len, Nat.add_comm]
  refine ⟨hctr, ?_⟩
  intro hsmall
  rw [hctr, Nat.mod_eq_of_lt hsmall]
  omega

/-- C6, at the failing input: two items; after the run `counter` is 3, not 2. -/
theorem CloneReposFromJson_counter_after_run_witness :
    run sampleRun (State.start sampleRun) sampleSchedule = some sampleFinal ∧
      sampleFinal.counter = 3 ∧ sampleFinal.counter ≠ 2 :=
  have h := CloneReposFromJson_counter_after_run sampleRun sampleSchedule sampleFinal rfl rfl
  ⟨rfl, h.1, h.2 (by decide)⟩

/-- C7 fails on the code.  A goroutine that has entered the gate computes the
local path `path.Join(dir, repo.Name)` and makes exactly one executor call, its
first: `git clone` with the item's URL and that path when `os.Stat` reports
`ENOENT`, and `git pull` inside that path when the path exists.  But it also
calls `git pull` when `os.Stat` fails in any other way, and so for `ENOTDIR`,
where the path does not exist.  No goroutine ever makes a second call. -/
theorem syncTask_call_follows_stat (c : Run) (acts : List Action) (s : State) (t : Nat)
    (fs : FileSystem) (r : ExecResult)
    (hrun : run c (State.start c) acts = some s)
    (hpc : s.pcs[t]? = some Pc.admitted) :
    (∃ repo s1, c.repos[t]? = some repo ∧
      step c s (Action.exec t fs r) = some s1 ∧
      s1.calls = s.calls ++ [(t, syncCommand c.lib fs c.dir repo)] ∧
      (s.calls.map Prod.fst).count t = 0 ∧
      (s1.calls.map Prod.fst).count t = 1 ∧
      (fs (c.lib.pathJoin [c.dir, repo.Name]) = StatResult.notExist →
        syncCommand c.lib fs c.dir repo
          = Invocation.ExecuteCommand "git"
              ["clone", repo.URL, c.lib.pathJoin [c.dir, repo.Name]]) ∧
      (fs (c.lib.pathJoin [c.dir, repo.Name]) = StatResult.found →
        syncCommand c.lib fs c.dir repo
          = Invocation.ExecuteCommandInDir (c.lib.pathJoin [c.dir, repo.Name]) "git" ["pull"]) ∧
      (fs (c.lib.pathJoin [c.dir, repo.Name]) = StatResult.notDir →
        (fs (c.lib.pathJoin [c.dir, repo.Name])).absent = true ∧
        syncCommand c.lib fs c.dir repo
          = Invocation.ExecuteCommandInDir (c.lib.pathJoin [c.dir, repo.Name]) "git" ["pull"]) ∧
      (fs (c.lib.pathJoin [c.dir, repo.Name]) = StatResult.otherError →
        syncCommand c.lib fs c.dir repo
          = Invocation.ExecuteCommandInDir (c.lib.pathJoin [c.dir, repo.Name]) "git"
              ["pull"])) ∧
    (∀ (acts2 : List Action) (s2 : State) (u : Nat),
      run c (State.start c) acts2 = some s2 → (s2.calls.map Prod.fst).count u ≤ 1) := by
  have hI := Inv_reachable c acts s hrun
  have hlt : t < s.pcs.length := by
    rcases List.getElem?_eq_some_iff.mp hpc with ⟨hlt, _⟩
    exact hlt
  have hlt2 : t < c.repos.length := by rw [← hI.len]; exact hlt
  have hrepo : c.repos[t]? = some c.repos[t] := List.getElem?_eq_getElem hlt2
  have hbefore : (s.calls.map Prod.fst).count t = 0 := by
    rw [hI.calls_count t]
    simp [executedAt, hpc, Pc.hasExecuted, Pc.rank]
  refine ⟨⟨c.repos[t],
    { s with
      pcs := s.pcs.set t Pc.executed
      calls := s.calls ++ [(t, syncCommand c.lib fs c.dir c.repos[t])]
      output := s.output ++ taskOutput c.dir c.verboseLog c.repos[t] r },
    hrepo, by simp [step, hrepo, hpc], rfl, hbefore, ?_, ?_, ?_, ?_, ?_⟩, ?_⟩
  · simp only [List.map_append, List.count_append, List.map_cons, List.map_nil,
      List.count_singleton, hbefore]
    simp
  · intro h
    simp [syncCommand, h, os_IsNotExist]
  · intro h
    simp [syncCommand, h, os_IsNotExist]
  · intro h
    simp [syncCommand, h, os_IsNotExist, StatResult.absent]
  · intro h
    simp [syncCommand, h, os_IsNotExist]
  · intro acts2 s2 u hrun2
    rw [(Inv_reachable c acts2 s2 hrun2).calls_count u]
    unfold executedAt
    split
    · split <;> omega
    · omega

/-- C7, at the failing input: the root `plainfile/acme` lies below a regular
file.  The prologue launches the goroutine without creating the directory, the
path `plainfile/acme/a` does not exist, and the one call made is `git pull`. -/
theorem syncTask_call_follows_stat_witness :
    prologue sampleLib plainfileDisk (fun _ => none) "[a]" "plainfile/acme" 1 false
        = Prologue.launched brokenRun ∧
      run brokenRun (State.start brokenRun) [Action.acquire 0] = some brokenAdmitted ∧
      (plainfileDisk "plainfile/acme/a").absent = true ∧
      ∃ s1, step brokenRun brokenAdmitted (Action.exec 0 plainfileDisk succeeded) = some s1 ∧
        s1.calls = [(0, Invocation.ExecuteCommandInDir "plainfile/acme/a" "git" ["pull"])] := by
  obtain ⟨repo, s1, hrepo, hstep, hcalls, _⟩ :=
    (syncTask_call_follows_stat brokenRun [Action.acquire 0] brokenAdmitted 0 plainfileDisk
      succeeded rfl rfl).1
  have hr : repo = ⟨"a", "u1"⟩ := by
    have h0 : brokenRun.repos[0]? = some ⟨"a", "u1"⟩ := rfl
    rw [h0] at hrepo
    exact (Option.some.inj hrepo).symm
  subst hr
  exact ⟨rfl, rfl, rfl, s1, hstep, by rw [hcalls]; rfl⟩

/-- C9: in every state of every schedule, for any gate size `K` and any number
of items, the number of goroutines that have entered the gate and not left it
is the number of elements in `sem` and is at most `K`; a goroutine that holds a
slot is never blocked, whether its executor call succeeds or fails, and the last
step of its body gives the slot back. -/
theorem CloneReposFromJson_bounded_concurrency (c : Run) (acts : List Action) (s : State)
    (hrun : run c (State.start c) acts = some s) :
    active s ≤ c.limit ∧ s.sem = active s ∧
    (∀ (t : Nat) (pc : Pc) (fs : FileSystem) (r : ExecResult),
      s.pcs[t]? = some pc → pc.holds = true →
      ∃ a s1, nextAction t fs r pc = some a ∧ step c s a = some s1 ∧
        (pc = Pc.signalled → active s1 + 1 = active s ∧ s1.pcs[t]? = some Pc.released)) := by
  have hI := Inv_reachable c acts s hrun
  refine ⟨?_, hI.sem_eq, ?_⟩
  · rw [← hI.sem_eq]
    exact hI.sem_le
  · intro t pc fs r hget hholds
    exact holder_not_blocked c s hI t pc fs r hget hholds

/-- C9, at a concrete input: two items behind a gate of size 1; once the second
goroutine is inside, one goroutine is active and the first cannot enter. -/
theorem CloneReposFromJson_bounded_concurrency_witness :
    active sampleHalfway = 1 ∧ sampleRun.limit = 1 ∧
      step sampleRun sampleHalfway (Action.acquire 0) = none :=
  have h := CloneReposFromJson_bounded_concurrency sampleRun
    [Action.acquire 1, Action.exec 1 emptyDisk failedClone] sampleHalfway rfl
  ⟨Nat.le_antisymm h.1 (by decide), rfl, rfl⟩

end Piscator
